import Mathlib

/-!
Verification of the FSM execution engine (`src/fsm.ts`) and the transition
helpers (`src/helpers.ts`).

The engine is embedded shallowly:

* `FSMStateHandler` mirrors the handler contract: `execute` returns an event
  and a new context, the optional hooks `onEnter`/`onExit`/`onError` may be
  absent, and every fallible operation is modelled with `Except Err`
  (a thrown JavaScript exception becomes `Except.error`).  `transition` may
  also throw, so it returns `Except Err (Option S)`; `none` is the `null`
  terminate signal.
* `FSM` carries the three instance fields `context`, `currentState` and
  `states` (the state map, as a partial function).
* `FSM.stepOut` is one iteration of the `while` loop in `FSM.run`, in the
  exact source order: onEnter, execute, commit `context := result.context`,
  onExit, yield, transition; the `catch` branch calls the state's `onError`
  with the context committed so far and re-raises.  Each hook invocation is
  recorded, with its arguments, in a trace of `Call` entries so that the
  ordering and argument claims are observable.
* `FSM.run` iterates `stepOut` with explicit fuel; a run that still has work
  to do when the fuel is exhausted reports `RunOutcome.outOfFuel`, so
  `RunOutcome.completed` certifies genuine termination of the loop.
* The source guard `while (this.currentState && this.states[...])`
  truthiness-tests `currentState` itself, so a mapped falsy state value
  (0, the empty string, NaN) also stops the loop.  `FSM.terminatedJS`,
  `FSM.stepOutJS` and `FSM.runJS` model that full guard, parameterized by a
  falsiness predicate on the state type; `FSM.terminated`, `FSM.stepOut` and
  `FSM.run` are the all-truthy special case.
-/

namespace FsmSpec

/-- Result of one `execute` call: the produced event and the new context. -/
structure FSMStateResult (E C : Type) where
  event : E
  context : C
  deriving DecidableEq

/-- Handler contract for one state, as in `src/types.ts`: required `execute`
and `transition`, optional lifecycle hooks.  Fallible operations return
`Except Err`. -/
structure FSMStateHandler (S E C Err : Type) where
  execute : C → Except Err (FSMStateResult E C)
  onEnter : Option (C → Except Err Unit) := none
  onExit : Option (E → C → Except Err Unit) := none
  onError : Option (Err → C → Except Err Unit) := none
  transition : E → C → Except Err (Option S)

/-- A recorded handler invocation, with the arguments it received. -/
inductive Call (S E C Err : Type) where
  | enter (s : S) (c : C)
  | exec (s : S) (c : C)
  | exit (s : S) (e : E) (c : C)
  | trans (s : S) (e : E) (c : C)
  | error (s : S) (err : Err) (c : C)
  deriving DecidableEq

/-- The engine's instance fields: `context`, `currentState` (nullable) and
the read-only state map. -/
structure FSM (S E C Err : Type) where
  context : C
  currentState : Option S
  states : S → Option (FSMStateHandler S E C Err)

variable {S E C Err : Type}

/-- The constructor: stores the three arguments with no validation. -/
def FSM.make (initialContext : C) (initialState : S)
    (st : S → Option (FSMStateHandler S E C Err)) : FSM S E C Err :=
  ⟨initialContext, some initialState, st⟩

/-- `getCurrentState()`: the current state, `none` for `null`. -/
def FSM.getCurrentState (m : FSM S E C Err) : Option S :=
  m.currentState

/-- `getContext()`: the live context value. -/
def FSM.getContext (m : FSM S E C Err) : C :=
  m.context

/-- `updateContext(updater)`: replace the context with `updater context`. -/
def FSM.updateContext (m : FSM S E C Err) (updater : C → C) : FSM S E C Err :=
  { m with context := updater m.context }

/-- `reset(newContext?, newState?)`: each field is replaced only when the
corresponding argument is supplied (`a ?? b` on the given arguments). -/
def FSM.reset (m : FSM S E C Err) (newContext : Option C) (newState : Option S) :
    FSM S E C Err :=
  { m with
    context := match newContext with
      | some c => c
      | none => m.context
    currentState := match newState with
      | some s => some s
      | none => m.currentState }

/-- The negation of the `while` guard `currentState && states[currentState]`,
specialized to state types with no falsy values: stopped when the current
state is absent or unmapped.  The full guard — JavaScript truthiness also
tests `currentState` itself, so a mapped falsy state (0, the empty string,
NaN) stops the loop too — is `FSM.terminatedJS` below. -/
def FSM.terminated (m : FSM S E C Err) : Bool :=
  match m.currentState with
  | none => true
  | some s => (m.states s).isNone

/-- Run `onEnter` if present (`onEnter?.(context)`). -/
def hookEnter (h : FSMStateHandler S E C Err) (c : C) : Except Err Unit :=
  match h.onEnter with
  | none => Except.ok ()
  | some f => f c

/-- Trace of the `onEnter` invocation: empty when the hook is absent. -/
def enterCalls (h : FSMStateHandler S E C Err) (s : S) (c : C) :
    List (Call S E C Err) :=
  match h.onEnter with
  | none => []
  | some _ => [Call.enter s c]

/-- Run `onExit` if present (`onExit?.(event, context)`). -/
def hookExit (h : FSMStateHandler S E C Err) (e : E) (c : C) : Except Err Unit :=
  match h.onExit with
  | none => Except.ok ()
  | some f => f e c

/-- Trace of the `onExit` invocation: empty when the hook is absent. -/
def exitCalls (h : FSMStateHandler S E C Err) (s : S) (e : E) (c : C) :
    List (Call S E C Err) :=
  match h.onExit with
  | none => []
  | some _ => [Call.exit s e c]

/-- Run `onError` if present (`onError?.(error, context)`). -/
def hookErrorRes (h : FSMStateHandler S E C Err) (err : Err) (c : C) :
    Except Err Unit :=
  match h.onError with
  | none => Except.ok ()
  | some f => f err c

/-- Trace of the `onError` invocation: empty when the hook is absent. -/
def errorCalls (h : FSMStateHandler S E C Err) (s : S) (err : Err) (c : C) :
    List (Call S E C Err) :=
  match h.onError with
  | none => []
  | some _ => [Call.error s err c]

/-- Result of one loop iteration: the guard failed (`done`), the body ran to
the end (`next`, with the updated machine, the yielded event and the trace),
or the `catch` branch re-raised (`fail`; `evs` holds the event if it had
already been yielded when the failure arose). -/
inductive StepOut (S E C Err : Type) where
  | done
  | next (m : FSM S E C Err) (evs : List E) (tr : List (Call S E C Err))
  | fail (m : FSM S E C Err) (evs : List E) (tr : List (Call S E C Err)) (e : Err)

/-- The `catch` branch: call this state's `onError` with the context committed
so far, then re-raise the original failure, or the hook's own failure when the
hook itself throws. -/
def handleErr (m : FSM S E C Err) (s : S) (h : FSMStateHandler S E C Err)
    (err : Err) (evs : List E) (tr : List (Call S E C Err)) : StepOut S E C Err :=
  match hookErrorRes h err m.context with
  | Except.ok _ => StepOut.fail m evs (tr ++ errorCalls h s err m.context) err
  | Except.error e2 => StepOut.fail m evs (tr ++ errorCalls h s err m.context) e2

/-- One iteration of the `run` loop, in source order: guard, onEnter, execute,
commit `context := result.context`, onExit, yield, transition.  The guard is
the truthy-state specialization; `FSM.stepOutJS` below adds the full guard's
truthiness test on the current state itself. -/
def FSM.stepOut (m : FSM S E C Err) : StepOut S E C Err :=
  match m.currentState with
  | none => StepOut.done
  | some s =>
    match m.states s with
    | none => StepOut.done
    | some h =>
      match hookEnter h m.context with
      | Except.error err => handleErr m s h err [] (enterCalls h s m.context)
      | Except.ok _ =>
        match h.execute m.context with
        | Except.error err =>
            handleErr m s h err []
              (enterCalls h s m.context ++ [Call.exec s m.context])
        | Except.ok r =>
          let m1 : FSM S E C Err := { m with context := r.context }
          match hookExit h r.event r.context with
          | Except.error err =>
              handleErr m1 s h err []
                (enterCalls h s m.context ++ [Call.exec s m.context]
                  ++ exitCalls h s r.event r.context)
          | Except.ok _ =>
            match h.transition r.event r.context with
            | Except.error err =>
                handleErr m1 s h err [r.event]
                  (enterCalls h s m.context ++ [Call.exec s m.context]
                    ++ exitCalls h s r.event r.context
                    ++ [Call.trans s r.event r.context])
            | Except.ok ns =>
                StepOut.next { m1 with currentState := ns } [r.event]
                  (enterCalls h s m.context ++ [Call.exec s m.context]
                    ++ exitCalls h s r.event r.context
                    ++ [Call.trans s r.event r.context])

/-- How a bounded run ended: the loop guard failed (`completed`), a failure
was re-raised to the consumer (`failed`), or the fuel ran out with the guard
still true (`outOfFuel`). -/
inductive RunOutcome (Err : Type) where
  | completed
  | outOfFuel
  | failed (e : Err)
  deriving DecidableEq

/-- Everything observable about a bounded run: the yielded events, the hook
trace, the final machine fields and the outcome. -/
structure RunResult (S E C Err : Type) where
  events : List E
  trace : List (Call S E C Err)
  machine : FSM S E C Err
  outcome : RunOutcome Err

/-- The `run` generator, iterated to exhaustion with explicit fuel. -/
def FSM.run (m : FSM S E C Err) : Nat → RunResult S E C Err
  | 0 =>
    if m.terminated then ⟨[], [], m, RunOutcome.completed⟩
    else ⟨[], [], m, RunOutcome.outOfFuel⟩
  | fuel + 1 =>
    match m.stepOut with
    | StepOut.done => ⟨[], [], m, RunOutcome.completed⟩
    | StepOut.fail m2 evs tr e => ⟨evs, tr, m2, RunOutcome.failed e⟩
    | StepOut.next m2 evs tr =>
      let r := m2.run fuel
      ⟨evs ++ r.events, tr ++ r.trace, r.machine, r.outcome⟩

/-! ### Basic lemmas about one step and about `run` -/

/-- `handleErr` always re-raises: its result is a `fail`. -/
theorem handleErr_isFail (m : FSM S E C Err) (s : S) (h : FSMStateHandler S E C Err)
    (err : Err) (evs : List E) (tr : List (Call S E C Err)) :
    ∃ m2 evs2 tr2 e2, handleErr m s h err evs tr = StepOut.fail m2 evs2 tr2 e2 := by
  unfold handleErr
  cases hres : hookErrorRes h err m.context <;> exact ⟨_, _, _, _, rfl⟩

/-- When the state's `onError` is present and returns cleanly, the `catch`
branch records exactly one `onError` call and re-raises the original failure. -/
theorem handleErr_ok (m : FSM S E C Err) (s : S) (h : FSMStateHandler S E C Err)
    (err : Err) (evs : List E) (tr : List (Call S E C Err))
    (f : Err → C → Except Err Unit)
    (hOnErr : h.onError = some f) (hok : f err m.context = Except.ok ()) :
    handleErr m s h err evs tr
      = StepOut.fail m evs (tr ++ [Call.error s err m.context]) err := by
  simp [handleErr, hookErrorRes, errorCalls, hOnErr, hok]

theorem stepOut_noState (m : FSM S E C Err) (hs : m.currentState = none) :
    m.stepOut = StepOut.done := by
  simp [FSM.stepOut, hs]

theorem stepOut_unmapped (m : FSM S E C Err) (s : S)
    (hs : m.currentState = some s) (hh : m.states s = none) :
    m.stepOut = StepOut.done := by
  simp [FSM.stepOut, hs, hh]

theorem stepOut_enterFail (m : FSM S E C Err) (s : S)
    (h : FSMStateHandler S E C Err) (err : Err)
    (hs : m.currentState = some s) (hh : m.states s = some h)
    (hEn : hookEnter h m.context = Except.error err) :
    m.stepOut = handleErr m s h err [] (enterCalls h s m.context) := by
  simp [FSM.stepOut, hs, hh, hEn]

theorem stepOut_execFail (m : FSM S E C Err) (s : S)
    (h : FSMStateHandler S E C Err) (err : Err)
    (hs : m.currentState = some s) (hh : m.states s = some h)
    (hEn : hookEnter h m.context = Except.ok ())
    (hex : h.execute m.context = Except.error err) :
    m.stepOut
      = handleErr m s h err [] (enterCalls h s m.context ++ [Call.exec s m.context]) := by
  simp [FSM.stepOut, hs, hh, hEn, hex]

theorem stepOut_exitFail (m : FSM S E C Err) (s : S)
    (h : FSMStateHandler S E C Err) (r : FSMStateResult E C) (err : Err)
    (hs : m.currentState = some s) (hh : m.states s = some h)
    (hEn : hookEnter h m.context = Except.ok ())
    (hex : h.execute m.context = Except.ok r)
    (hXt : hookExit h r.event r.context = Except.error err) :
    m.stepOut
      = handleErr { m with context := r.context } s h err []
          (enterCalls h s m.context ++ [Call.exec s m.context]
            ++ exitCalls h s r.event r.context) := by
  simp [FSM.stepOut, hs, hh, hEn, hex, hXt]

theorem stepOut_transFail (m : FSM S E C Err) (s : S)
    (h : FSMStateHandler S E C Err) (r : FSMStateResult E C) (err : Err)
    (hs : m.currentState = some s) (hh : m.states s = some h)
    (hEn : hookEnter h m.context = Except.ok ())
    (hex : h.execute m.context = Except.ok r)
    (hXt : hookExit h r.event r.context = Except.ok ())
    (htr : h.transition r.event r.context = Except.error err) :
    m.stepOut
      = handleErr { m with context := r.context } s h err [r.event]
          (enterCalls h s m.context ++ [Call.exec s m.context]
            ++ exitCalls h s r.event r.context
            ++ [Call.trans s r.event r.context]) := by
  simp [FSM.stepOut, hs, hh, hEn, hex, hXt, htr]

theorem stepOut_ok (m : FSM S E C Err) (s : S)
    (h : FSMStateHandler S E C Err) (r : FSMStateResult E C) (ns : Option S)
    (hs : m.currentState = some s) (hh : m.states s = some h)
    (hEn : hookEnter h m.context = Except.ok ())
    (hex : h.execute m.context = Except.ok r)
    (hXt : hookExit h r.event r.context = Except.ok ())
    (htr : h.transition r.event r.context = Except.ok ns) :
    m.stepOut
      = StepOut.next ⟨r.context, ns, m.states⟩ [r.event]
          (enterCalls h s m.context ++ [Call.exec s m.context]
            ++ exitCalls h s r.event r.context
            ++ [Call.trans s r.event r.context]) := by
  simp [FSM.stepOut, hs, hh, hEn, hex, hXt, htr]

theorem run_succ_done (m : FSM S E C Err) (n : Nat) (hst : m.stepOut = StepOut.done) :
    m.run (n + 1) = ⟨[], [], m, RunOutcome.completed⟩ := by
  simp [FSM.run, hst]

theorem run_succ_fail (m m2 : FSM S E C Err) (evs : List E)
    (tr : List (Call S E C Err)) (e : Err) (n : Nat)
    (hst : m.stepOut = StepOut.fail m2 evs tr e) :
    m.run (n + 1) = ⟨evs, tr, m2, RunOutcome.failed e⟩ := by
  simp [FSM.run, hst]

theorem run_succ_next (m m2 : FSM S E C Err) (evs : List E)
    (tr : List (Call S E C Err)) (n : Nat)
    (hst : m.stepOut = StepOut.next m2 evs tr) :
    m.run (n + 1)
      = ⟨evs ++ (m2.run n).events, tr ++ (m2.run n).trace,
          (m2.run n).machine, (m2.run n).outcome⟩ := by
  simp [FSM.run, hst]

/-- A terminated machine has `stepOut = done`. -/
theorem stepOut_of_terminated (m : FSM S E C Err) (ht : m.terminated = true) :
    m.stepOut = StepOut.done := by
  unfold FSM.terminated at ht
  cases hs : m.currentState with
  | none => exact stepOut_noState m hs
  | some s =>
    rw [hs] at ht
    exact stepOut_unmapped m s hs (Option.isNone_iff_eq_none.mp ht)

/-- A terminated machine runs to immediate completion for every fuel. -/
theorem run_of_terminated (m : FSM S E C Err) (n : Nat) (ht : m.terminated = true) :
    m.run n = ⟨[], [], m, RunOutcome.completed⟩ := by
  cases n with
  | zero => simp [FSM.run, ht]
  | succ k => exact run_succ_done m k (stepOut_of_terminated m ht)

/-- Exhaustive shape of one step: either the machine is terminated and the
step is `done`, or the guard holds and the step yields exactly one event
(`next`) or fails (`fail`). -/
theorem stepOut_cases (m : FSM S E C Err) :
    (m.terminated = true ∧ m.stepOut = StepOut.done) ∨
    (m.terminated = false ∧
      ((∃ m2 e tr, m.stepOut = StepOut.next m2 [e] tr) ∨
       (∃ m2 evs tr e2, m.stepOut = StepOut.fail m2 evs tr e2))) := by
  cases hs : m.currentState with
  | none => exact Or.inl ⟨by simp [FSM.terminated, hs], stepOut_noState m hs⟩
  | some s =>
    cases hh : m.states s with
    | none =>
      exact Or.inl ⟨by simp [FSM.terminated, hs, hh], stepOut_unmapped m s hs hh⟩
    | some h =>
      refine Or.inr ⟨by simp [FSM.terminated, hs, hh], ?_⟩
      cases hEn : hookEnter h m.context with
      | error err =>
        obtain ⟨m2, evs2, tr2, e2, hfe⟩ := handleErr_isFail m s h err [] (enterCalls h s m.context)
        exact Or.inr ⟨m2, evs2, tr2, e2, by rw [stepOut_enterFail m s h err hs hh hEn, hfe]⟩
      | ok u =>
        cases u
        cases hex : h.execute m.context with
        | error err =>
          obtain ⟨m2, evs2, tr2, e2, hfe⟩ :=
            handleErr_isFail m s h err [] (enterCalls h s m.context ++ [Call.exec s m.context])
          exact Or.inr ⟨m2, evs2, tr2, e2, by rw [stepOut_execFail m s h err hs hh hEn hex, hfe]⟩
        | ok r =>
          cases hXt : hookExit h r.event r.context with
          | error err =>
            obtain ⟨m2, evs2, tr2, e2, hfe⟩ :=
              handleErr_isFail { m with context := r.context } s h err []
                (enterCalls h s m.context ++ [Call.exec s m.context]
                  ++ exitCalls h s r.event r.context)
            exact Or.inr ⟨m2, evs2, tr2, e2,
              by rw [stepOut_exitFail m s h r err hs hh hEn hex hXt, hfe]⟩
          | ok u2 =>
            cases u2
            cases htr : h.transition r.event r.context with
            | error err =>
              obtain ⟨m2, evs2, tr2, e2, hfe⟩ :=
                handleErr_isFail { m with context := r.context } s h err [r.event]
                  (enterCalls h s m.context ++ [Call.exec s m.context]
                    ++ exitCalls h s r.event r.context
                    ++ [Call.trans s r.event r.context])
              exact Or.inr ⟨m2, evs2, tr2, e2,
                by rw [stepOut_transFail m s h r err hs hh hEn hex hXt htr, hfe]⟩
            | ok ns =>
              exact Or.inl ⟨⟨r.context, ns, m.states⟩, r.event, _,
                stepOut_ok m s h r ns hs hh hEn hex hXt htr⟩

/-- Membership in the optional `onEnter` trace. -/
theorem mem_enterCalls (h : FSMStateHandler S E C Err) (s : S) (c : C)
    (x : Call S E C Err) (hx : x ∈ enterCalls h s c) : x = Call.enter s c := by
  unfold enterCalls at hx
  cases hcase : h.onEnter <;> rw [hcase] at hx <;> simp_all

/-- Membership in the optional `onExit` trace. -/
theorem mem_exitCalls (h : FSMStateHandler S E C Err) (s : S) (e : E) (c : C)
    (x : Call S E C Err) (hx : x ∈ exitCalls h s e c) : x = Call.exit s e c := by
  unfold exitCalls at hx
  cases hcase : h.onExit <;> rw [hcase] at hx <;> simp_all

/-- Membership in the optional `onError` trace. -/
theorem mem_errorCalls (h : FSMStateHandler S E C Err) (s : S) (err : Err) (c : C)
    (x : Call S E C Err) (hx : x ∈ errorCalls h s err c) : x = Call.error s err c := by
  unfold errorCalls at hx
  cases hcase : h.onError <;> rw [hcase] at hx <;> simp_all

/-- `handleErr` fixes the machine and the trace; only the re-raised error
depends on the outcome of the `onError` hook. -/
theorem handleErr_parts (m : FSM S E C Err) (s : S) (h : FSMStateHandler S E C Err)
    (err : Err) (evs : List E) (tr : List (Call S E C Err)) :
    ∃ e2, handleErr m s h err evs tr
      = StepOut.fail m evs (tr ++ errorCalls h s err m.context) e2 := by
  unfold handleErr
  cases hookErrorRes h err m.context <;> exact ⟨_, rfl⟩

theorem exit_notin_enterCalls (h : FSMStateHandler S E C Err) (s s2 : S)
    (c c2 : C) (e2 : E) (hx : Call.exit s2 e2 c2 ∈ enterCalls h s c) : False := by
  have := mem_enterCalls h s c _ hx
  simp at this

theorem exit_notin_errorCalls (h : FSMStateHandler S E C Err) (s s2 : S)
    (err : Err) (c c2 : C) (e2 : E)
    (hx : Call.exit s2 e2 c2 ∈ errorCalls h s err c) : False := by
  have := mem_errorCalls h s err c _ hx
  simp at this

theorem trans_notin_enterCalls (h : FSMStateHandler S E C Err) (s s2 : S)
    (c c2 : C) (e2 : E) (hx : Call.trans s2 e2 c2 ∈ enterCalls h s c) : False := by
  have := mem_enterCalls h s c _ hx
  simp at this

theorem trans_notin_exitCalls (h : FSMStateHandler S E C Err) (s s2 : S)
    (e : E) (c c2 : C) (e2 : E)
    (hx : Call.trans s2 e2 c2 ∈ exitCalls h s e c) : False := by
  have := mem_exitCalls h s e c _ hx
  simp at this

theorem trans_notin_errorCalls (h : FSMStateHandler S E C Err) (s s2 : S)
    (err : Err) (c c2 : C) (e2 : E)
    (hx : Call.trans s2 e2 c2 ∈ errorCalls h s err c) : False := by
  have := mem_errorCalls h s err c _ hx
  simp at this

theorem error_notin_enterCalls (h : FSMStateHandler S E C Err) (s s2 : S)
    (c c2 : C) (e2 : Err) (hx : Call.error s2 e2 c2 ∈ enterCalls h s c) : False := by
  have := mem_enterCalls h s c _ hx
  simp at this

theorem error_notin_exitCalls (h : FSMStateHandler S E C Err) (s s2 : S)
    (e : E) (c c2 : C) (e2 : Err)
    (hx : Call.error s2 e2 c2 ∈ exitCalls h s e c) : False := by
  have := mem_exitCalls h s e c _ hx
  simp at this

/-- Context after one step: the machine field of the step result, or the
given (unchanged) context when the guard failed. -/
def StepOut.ctxAfter (c : C) : StepOut S E C Err → C
  | StepOut.done => c
  | StepOut.next m2 _ _ => m2.context
  | StepOut.fail m2 _ _ _ => m2.context

/-- The hook trace of one step. -/
def StepOut.calls : StepOut S E C Err → List (Call S E C Err)
  | StepOut.done => []
  | StepOut.next _ _ tr => tr
  | StepOut.fail _ _ tr _ => tr

/-! ### Claim C1: the commit `context := result.context` -/

/-- Claim C1: in any step whose `execute` succeeds with result `r`, the engine
commits `context := r.context` exactly once and immediately: whatever happens
afterwards (clean step, `onExit` failure, `transition` failure), the machine's
context field ends up being `r.context`, and every `onExit` and every
`transition` invocation of that step receives exactly `r.event` and
`r.context`. -/
theorem fsm_context_commit (m : FSM S E C Err) (s : S)
    (h : FSMStateHandler S E C Err) (r : FSMStateResult E C)
    (hs : m.currentState = some s) (hh : m.states s = some h)
    (hEn : hookEnter h m.context = Except.ok ())
    (hex : h.execute m.context = Except.ok r) :
    m.stepOut.ctxAfter m.context = r.context ∧
    (∀ s2 e2 c2, Call.exit s2 e2 c2 ∈ m.stepOut.calls →
        s2 = s ∧ e2 = r.event ∧ c2 = r.context) ∧
    (∀ s2 e2 c2, Call.trans s2 e2 c2 ∈ m.stepOut.calls →
        s2 = s ∧ e2 = r.event ∧ c2 = r.context) := by
  cases hXt : hookExit h r.event r.context with
  | error err =>
    obtain ⟨e9, hfe⟩ := handleErr_parts { m with context := r.context } s h err []
      (enterCalls h s m.context ++ [Call.exec s m.context]
        ++ exitCalls h s r.event r.context)
    rw [stepOut_exitFail m s h r err hs hh hEn hex hXt, hfe]
    refine ⟨rfl, ?_, ?_⟩ <;> intro s2 e2 c2 hmem <;>
      simp only [StepOut.calls, List.mem_append, List.mem_singleton] at hmem
    · rcases hmem with ((h1 | h2) | h3) | h4
      · exact absurd h1 (fun hx => exit_notin_enterCalls h s s2 m.context c2 e2 hx)
      · simp at h2
      · have := mem_exitCalls h s r.event r.context _ h3
        simp at this
        exact ⟨this.1, this.2.1, this.2.2⟩
      · exact absurd h4 (fun hx => exit_notin_errorCalls h s s2 err r.context c2 e2 hx)
    · rcases hmem with ((h1 | h2) | h3) | h4
      · exact absurd h1 (fun hx => trans_notin_enterCalls h s s2 m.context c2 e2 hx)
      · simp at h2
      · exact absurd h3 (fun hx => trans_notin_exitCalls h s s2 r.event r.context c2 e2 hx)
      · exact absurd h4 (fun hx => trans_notin_errorCalls h s s2 err r.context c2 e2 hx)
  | ok u =>
    cases u
    cases htr : h.transition r.event r.context with
    | error err =>
      obtain ⟨e9, hfe⟩ := handleErr_parts { m with context := r.context } s h err [r.event]
        (enterCalls h s m.context ++ [Call.exec s m.context]
          ++ exitCalls h s r.event r.context ++ [Call.trans s r.event r.context])
      rw [stepOut_transFail m s h r err hs hh hEn hex hXt htr, hfe]
      refine ⟨rfl, ?_, ?_⟩ <;> intro s2 e2 c2 hmem <;>
        simp only [StepOut.calls, List.mem_append, List.mem_singleton] at hmem
      · rcases hmem with (((h1 | h2) | h3) | h4) | h5
        · exact absurd h1 (fun hx => exit_notin_enterCalls h s s2 m.context c2 e2 hx)
        · simp at h2
        · have := mem_exitCalls h s r.event r.context _ h3
          simp at this
          exact ⟨this.1, this.2.1, this.2.2⟩
        · simp at h4
        · exact absurd h5 (fun hx => exit_notin_errorCalls h s s2 err r.context c2 e2 hx)
      · rcases hmem with (((h1 | h2) | h3) | h4) | h5
        · exact absurd h1 (fun hx => trans_notin_enterCalls h s s2 m.context c2 e2 hx)
        · simp at h2
        · exact absurd h3 (fun hx => trans_notin_exitCalls h s s2 r.event r.context c2 e2 hx)
        · simp at h4
          exact ⟨h4.1, h4.2.1, h4.2.2⟩
        · exact absurd h5 (fun hx => trans_notin_errorCalls h s s2 err r.context c2 e2 hx)
    | ok ns =>
      rw [stepOut_ok m s h r ns hs hh hEn hex hXt htr]
      refine ⟨rfl, ?_, ?_⟩ <;> intro s2 e2 c2 hmem <;>
        simp only [StepOut.calls, List.mem_append, List.mem_singleton] at hmem
      · rcases hmem with ((h1 | h2) | h3) | h4
        · exact absurd h1 (fun hx => exit_notin_enterCalls h s s2 m.context c2 e2 hx)
        · simp at h2
        · have := mem_exitCalls h s r.event r.context _ h3
          simp at this
          exact ⟨this.1, this.2.1, this.2.2⟩
        · simp at h4
      · rcases hmem with ((h1 | h2) | h3) | h4
        · exact absurd h1 (fun hx => trans_notin_enterCalls h s s2 m.context c2 e2 hx)
        · simp at h2
        · exact absurd h3 (fun hx => trans_notin_exitCalls h s s2 r.event r.context c2 e2 hx)
        · simp at h4
          exact ⟨h4.1, h4.2.1, h4.2.2⟩

/-! ### Claims C2 and C10: failure routing through `onError` -/

/-- Claim C2: if `onEnter`, `execute` or `onExit` of the current state's
handler fails with `err`, and the handler's `onError` is present and itself
returns cleanly on `(err, cc)` where `cc` is the context committed at that
point (the pre-execute context when `onEnter` or `execute` failed, the
post-commit context when `onExit` failed), then the run invokes `onError`
exactly once — as the final hook call of the run, with exactly `err` and `cc`
— yields no event for that step, re-raises the same `err` to the consumer,
and runs no further handler: the engine fields stay at `cc` and the failing
state. -/
theorem fsm_error_routing (m : FSM S E C Err) (s : S)
    (h : FSMStateHandler S E C Err) (err : Err) (cc : C)
    (f : Err → C → Except Err Unit) (fuel : Nat)
    (hs : m.currentState = some s) (hh : m.states s = some h)
    (hOnErr : h.onError = some f) (hok : f err cc = Except.ok ())
    (hfail :
      (hookEnter h m.context = Except.error err ∧ cc = m.context) ∨
      (hookEnter h m.context = Except.ok () ∧
        h.execute m.context = Except.error err ∧ cc = m.context) ∨
      (hookEnter h m.context = Except.ok () ∧
        ∃ r, h.execute m.context = Except.ok r ∧
          hookExit h r.event r.context = Except.error err ∧ cc = r.context)) :
    ∃ tr, (m.run (fuel + 1)).outcome = RunOutcome.failed err ∧
      (m.run (fuel + 1)).trace = tr ++ [Call.error s err cc] ∧
      (∀ s2 e2 c2, Call.error s2 e2 c2 ∈ tr → False) ∧
      (m.run (fuel + 1)).events = [] ∧
      (m.run (fuel + 1)).machine.context = cc ∧
      (m.run (fuel + 1)).machine.currentState = some s := by
  rcases hfail with ⟨hEn, hcc⟩ | ⟨hEn, hex, hcc⟩ | ⟨hEn, r, hex, hXt, hcc⟩
  · subst hcc
    have hstep : m.stepOut
        = StepOut.fail m [] (enterCalls h s m.context ++ [Call.error s err m.context]) err := by
      rw [stepOut_enterFail m s h err hs hh hEn]
      exact handleErr_ok m s h err [] (enterCalls h s m.context) f hOnErr hok
    rw [run_succ_fail m m [] _ err fuel hstep]
    refine ⟨enterCalls h s m.context, rfl, rfl, ?_, rfl, rfl, hs⟩
    intro s2 e2 c2 hmem
    exact error_notin_enterCalls h s s2 m.context c2 e2 hmem
  · subst hcc
    have hstep : m.stepOut
        = StepOut.fail m []
            ((enterCalls h s m.context ++ [Call.exec s m.context])
              ++ [Call.error s err m.context]) err := by
      rw [stepOut_execFail m s h err hs hh hEn hex]
      exact handleErr_ok m s h err []
        (enterCalls h s m.context ++ [Call.exec s m.context]) f hOnErr hok
    rw [run_succ_fail m m [] _ err fuel hstep]
    refine ⟨enterCalls h s m.context ++ [Call.exec s m.context], rfl, rfl, ?_, rfl, rfl, hs⟩
    intro s2 e2 c2 hmem
    simp only [List.mem_append, List.mem_singleton] at hmem
    rcases hmem with h1 | h2
    · exact error_notin_enterCalls h s s2 m.context c2 e2 h1
    · simp at h2
  · subst hcc
    have hstep : m.stepOut
        = StepOut.fail { m with context := r.context } []
            ((enterCalls h s m.context ++ [Call.exec s m.context]
              ++ exitCalls h s r.event r.context)
              ++ [Call.error s err r.context]) err := by
      rw [stepOut_exitFail m s h r err hs hh hEn hex hXt]
      exact handleErr_ok { m with context := r.context } s h err []
        (enterCalls h s m.context ++ [Call.exec s m.context]
          ++ exitCalls h s r.event r.context) f hOnErr hok
    rw [run_succ_fail m { m with context := r.context } [] _ err fuel hstep]
    refine ⟨enterCalls h s m.context ++ [Call.exec s m.context]
      ++ exitCalls h s r.event r.context, rfl, rfl, ?_, rfl, rfl, hs⟩
    intro s2 e2 c2 hmem
    simp only [List.mem_append, List.mem_singleton] at hmem
    rcases hmem with (h1 | h2) | h3
    · exact error_notin_enterCalls h s s2 m.context c2 e2 h1
    · simp at h2
    · exact error_notin_exitCalls h s s2 r.event r.context c2 e2 h3

/-- Claim C10: if the current state's `transition` itself fails with `err`
(after the step's event has already been yielded) and the handler's `onError`
returns cleanly on `(err, r.context)`, then the run emits exactly that one
event, invokes the same state's `onError` exactly once — as the final hook
call, with `err` and the committed post-execute context `r.context` —
re-raises the same `err`, and leaves `currentState` equal to the state whose
`transition` failed. -/
theorem fsm_transition_error_routing (m : FSM S E C Err) (s : S)
    (h : FSMStateHandler S E C Err) (r : FSMStateResult E C) (err : Err)
    (f : Err → C → Except Err Unit) (fuel : Nat)
    (hs : m.currentState = some s) (hh : m.states s = some h)
    (hEn : hookEnter h m.context = Except.ok ())
    (hex : h.execute m.context = Except.ok r)
    (hXt : hookExit h r.event r.context = Except.ok ())
    (htr : h.transition r.event r.context = Except.error err)
    (hOnErr : h.onError = some f) (hok : f err r.context = Except.ok ()) :
    ∃ tr, (m.run (fuel + 1)).events = [r.event] ∧
      (m.run (fuel + 1)).outcome = RunOutcome.failed err ∧
      (m.run (fuel + 1)).trace = tr ++ [Call.error s err r.context] ∧
      (∀ s2 e2 c2, Call.error s2 e2 c2 ∈ tr → False) ∧
      (m.run (fuel + 1)).machine.currentState = some s ∧
      (m.run (fuel + 1)).machine.context = r.context := by
  have hstep : m.stepOut
      = StepOut.fail { m with context := r.context } [r.event]
          ((enterCalls h s m.context ++ [Call.exec s m.context]
            ++ exitCalls h s r.event r.context ++ [Call.trans s r.event r.context])
            ++ [Call.error s err r.context]) err := by
    rw [stepOut_transFail m s h r err hs hh hEn hex hXt htr]
    exact handleErr_ok { m with context := r.context } s h err [r.event]
      (enterCalls h s m.context ++ [Call.exec s m.context]
        ++ exitCalls h s r.event r.context ++ [Call.trans s r.event r.context]) f hOnErr hok
  rw [run_succ_fail m { m with context := r.context } [r.event] _ err fuel hstep]
  refine ⟨enterCalls h s m.context ++ [Call.exec s m.context]
    ++ exitCalls h s r.event r.context ++ [Call.trans s r.event r.context],
    rfl, rfl, rfl, ?_, hs, rfl⟩
  intro s2 e2 c2 hmem
  simp only [List.mem_append, List.mem_singleton] at hmem
  rcases hmem with ((h1 | h2) | h3) | h4
  · exact error_notin_enterCalls h s s2 m.context c2 e2 h1
  · simp at h2
  · exact error_notin_exitCalls h s s2 r.event r.context c2 e2 h3
  · simp at h4

/-! ### Claim C3: `getCurrentState` versus termination -/

/-- The negated loop guard in full: `while (currentState &&
states[currentState])` truthiness-tests `currentState` itself before the map
lookup, so the run also stops on a mapped but falsy state value (the number
0, the empty string, NaN — all legitimate states).  `falsy` encodes
JavaScript truthiness of the concrete state type; `FSM.terminated` is the
special case of an all-truthy state type. -/
def FSM.terminatedJS (m : FSM S E C Err) (falsy : S -> Bool) : Bool :=
  match m.currentState with
  | none => true
  | some s => falsy s || (m.states s).isNone

/-- One iteration of the loop under the full JavaScript guard: a falsy
current state fails the guard before the handler lookup; otherwise the
iteration is exactly `FSM.stepOut`. -/
def FSM.stepOutJS (m : FSM S E C Err) (falsy : S -> Bool) : StepOut S E C Err :=
  match m.currentState with
  | none => StepOut.done
  | some s => if falsy s then StepOut.done else m.stepOut

/-- The `run` generator under the full JavaScript guard. -/
def FSM.runJS (m : FSM S E C Err) (falsy : S -> Bool) : Nat -> RunResult S E C Err
  | 0 =>
    if m.terminatedJS falsy then RunResult.mk [] [] m RunOutcome.completed
    else RunResult.mk [] [] m RunOutcome.outOfFuel
  | fuel + 1 =>
    match m.stepOutJS falsy with
    | StepOut.done => RunResult.mk [] [] m RunOutcome.completed
    | StepOut.fail m2 evs tr e => RunResult.mk evs tr m2 (RunOutcome.failed e)
    | StepOut.next m2 evs tr =>
      let r := m2.runJS falsy fuel
      RunResult.mk (evs ++ r.events) (tr ++ r.trace) r.machine r.outcome

/-- On a state type with no falsy values the full guard is `FSM.terminated`. -/
theorem terminatedJS_all_truthy (m : FSM S E C Err) :
    m.terminatedJS (fun _ => false) = m.terminated := by
  cases hs : m.currentState <;> simp [FSM.terminatedJS, FSM.terminated, hs]

/-- On a state type with no falsy values the full-guard iteration is
`FSM.stepOut`. -/
theorem stepOutJS_all_truthy (m : FSM S E C Err) :
    m.stepOutJS (fun _ => false) = m.stepOut := by
  cases hs : m.currentState with
  | none => rw [stepOut_noState m hs]; simp [FSM.stepOutJS, hs]
  | some s => simp [FSM.stepOutJS, hs]

theorem runJS_succ_done (m : FSM S E C Err) (falsy : S -> Bool) (n : Nat)
    (hst : m.stepOutJS falsy = StepOut.done) :
    m.runJS falsy (n + 1) = RunResult.mk [] [] m RunOutcome.completed := by
  simp [FSM.runJS, hst]

theorem runJS_succ_fail (m m2 : FSM S E C Err) (falsy : S -> Bool) (evs : List E)
    (tr : List (Call S E C Err)) (e : Err) (n : Nat)
    (hst : m.stepOutJS falsy = StepOut.fail m2 evs tr e) :
    m.runJS falsy (n + 1) = RunResult.mk evs tr m2 (RunOutcome.failed e) := by
  simp [FSM.runJS, hst]

theorem runJS_succ_next (m m2 : FSM S E C Err) (falsy : S -> Bool) (evs : List E)
    (tr : List (Call S E C Err)) (n : Nat)
    (hst : m.stepOutJS falsy = StepOut.next m2 evs tr) :
    m.runJS falsy (n + 1)
      = RunResult.mk (evs ++ (m2.runJS falsy n).events)
          (tr ++ (m2.runJS falsy n).trace)
          (m2.runJS falsy n).machine (m2.runJS falsy n).outcome := by
  simp [FSM.runJS, hst]

/-- Under the full guard, a terminated machine takes no step. -/
theorem stepOutJS_of_terminatedJS (m : FSM S E C Err) (falsy : S -> Bool)
    (ht : m.terminatedJS falsy = true) : m.stepOutJS falsy = StepOut.done := by
  unfold FSM.terminatedJS at ht
  cases hs : m.currentState with
  | none => simp [FSM.stepOutJS, hs]
  | some s =>
    rw [hs] at ht
    simp only [Bool.or_eq_true] at ht
    rcases ht with hf | hn
    · simp [FSM.stepOutJS, hs, hf]
    · have hd := stepOut_unmapped m s hs (Option.isNone_iff_eq_none.mp hn)
      simp [FSM.stepOutJS, hs, hd]

/-- Under the full guard, a terminated machine runs to immediate completion
for every fuel. -/
theorem runJS_of_terminatedJS (m : FSM S E C Err) (falsy : S -> Bool) (n : Nat)
    (ht : m.terminatedJS falsy = true) :
    m.runJS falsy n = RunResult.mk [] [] m RunOutcome.completed := by
  cases n with
  | zero => simp [FSM.runJS, ht]
  | succ k => exact runJS_succ_done m falsy k (stepOutJS_of_terminatedJS m falsy ht)

/-- Exhaustive shape of one full-guard step: terminated and `done`, or the
guard holds and the step yields exactly one event or fails. -/
theorem stepOutJS_cases (m : FSM S E C Err) (falsy : S -> Bool) :
    (m.terminatedJS falsy = true ∧ m.stepOutJS falsy = StepOut.done) ∨
    (m.terminatedJS falsy = false ∧
      ((∃ m2 e tr, m.stepOutJS falsy = StepOut.next m2 [e] tr) ∨
       (∃ m2 evs tr e2, m.stepOutJS falsy = StepOut.fail m2 evs tr e2))) := by
  cases hs : m.currentState with
  | none =>
    exact Or.inl ⟨by simp [FSM.terminatedJS, hs], by simp [FSM.stepOutJS, hs]⟩
  | some s =>
    cases hf : falsy s with
    | true =>
      exact Or.inl ⟨by simp [FSM.terminatedJS, hs, hf],
        by simp [FSM.stepOutJS, hs, hf]⟩
    | false =>
      cases hh : m.states s with
      | none =>
        refine Or.inl ⟨by simp [FSM.terminatedJS, hs, hf, hh], ?_⟩
        have hd := stepOut_unmapped m s hs hh
        simp [FSM.stepOutJS, hs, hf, hd]
      | some h =>
        have hjs : m.stepOutJS falsy = m.stepOut := by simp [FSM.stepOutJS, hs, hf]
        rcases stepOut_cases m with ⟨ht, _⟩ | ⟨_, hsh⟩
        · exfalso
          rw [show m.terminated = false from by simp [FSM.terminated, hs, hh]] at ht
          exact Bool.false_ne_true ht
        · refine Or.inr ⟨by simp [FSM.terminatedJS, hs, hf, hh], ?_⟩
          rw [hjs]
          exact hsh

/-- A machine stranded on a truthy current state that has no map entry. -/
def strandedMachine : FSM Nat Nat Nat Nat :=
  FSM.make 0 1 (fun _ => none)

/-- Claim C3 counterexample: `strandedMachine` has terminated under the full
JavaScript guard (its run stops immediately and cleanly with zero events),
yet `getCurrentState` returns the unmapped state 1, not `null`; so
"`getCurrentState` returns null iff the machine has terminated" is false. -/
theorem fsm_termination_detection_cex :
    strandedMachine.terminatedJS (fun n => n == 0) = true ∧
    (strandedMachine.runJS (fun n => n == 0) 3).events = [] ∧
    (strandedMachine.runJS (fun n => n == 0) 3).outcome = RunOutcome.completed ∧
    ¬ (strandedMachine.getCurrentState = none ↔
        strandedMachine.terminatedJS (fun n => n == 0) = true) := by
  refine ⟨rfl, rfl, rfl, ?_⟩
  intro hiff
  have hnone := hiff.mpr rfl
  simp [strandedMachine, FSM.make, FSM.getCurrentState] at hnone

/-- Claim C3 as amended: a `null` current state implies termination; the
machine has terminated — its run stops at once, cleanly and with no events —
exactly when the current state is `null`, falsy under JavaScript truthiness
of the state type, or unmapped; but a terminated machine may still report a
non-null current state (an unmapped or falsy one). -/
theorem fsm_termination_detection (falsy : S -> Bool) (m : FSM S E C Err)
    (fuel : Nat) :
    (m.getCurrentState = none → m.terminatedJS falsy = true) ∧
    (m.terminatedJS falsy = true ↔
      (m.currentState = none ∨
        ∃ s, m.currentState = some s ∧ (falsy s = true ∨ m.states s = none))) ∧
    (m.terminatedJS falsy = true ↔
      ((m.runJS falsy (fuel + 1)).events = [] ∧
        (m.runJS falsy (fuel + 1)).outcome = RunOutcome.completed)) := by
  refine ⟨?_, ?_, ?_⟩
  · intro hn
    unfold FSM.getCurrentState at hn
    simp [FSM.terminatedJS, hn]
  · unfold FSM.terminatedJS
    cases hs : m.currentState with
    | none => simp
    | some s => simp [Option.isNone_iff_eq_none]
  · constructor
    · intro ht
      rw [runJS_of_terminatedJS m falsy (fuel + 1) ht]
      exact ⟨rfl, rfl⟩
    · rintro ⟨hev, hout⟩
      rcases stepOutJS_cases m falsy with ⟨ht, _⟩ | ⟨_, hsh⟩
      · exact ht
      · exfalso
        rcases hsh with ⟨m2, e, tr, hnext⟩ | ⟨m2, evs, tr, e2, hfail⟩
        · rw [runJS_succ_next m m2 falsy [e] tr fuel hnext] at hev
          simp at hev
        · rw [runJS_succ_fail m m2 falsy evs tr e2 fuel hfail] at hout
          simp at hout

/-- Claim C3 witness: the amended statement at a concrete machine with
numeric (falsy-capable) states. -/
theorem fsm_termination_detection_witness :
    (strandedMachine.getCurrentState = none →
      strandedMachine.terminatedJS (fun n => n == 0) = true) ∧
    (strandedMachine.terminatedJS (fun n => n == 0) = true ↔
      (strandedMachine.currentState = none ∨
        ∃ s, strandedMachine.currentState = some s ∧
          ((s == 0) = true ∨ strandedMachine.states s = none))) ∧
    (strandedMachine.terminatedJS (fun n => n == 0) = true ↔
      ((strandedMachine.runJS (fun n => n == 0) 3).events = [] ∧
        (strandedMachine.runJS (fun n => n == 0) 3).outcome
          = RunOutcome.completed)) :=
  fsm_termination_detection (fun n => n == 0) strandedMachine 2

/-! ### Claim C4: the three-state scenario -/

/-- A hook-free handler that produces the fixed event `ev`, passes the
context through, and always moves to `next`. -/
def pureHandler (ev : String) (next : Option String) :
    FSMStateHandler String String Nat String :=
  { execute := fun c => Except.ok ⟨ev, c⟩
    transition := fun _ _ => Except.ok next }

/-- The Scenario 1 machine: idle yields "go" and moves to loading, loading
yields "done" and moves to success, success (whose execute yields `ev`)
always transitions to terminate. -/
def scenario1 (ev : String) : FSM String String Nat String :=
  FSM.make 0 "idle" (fun s =>
    if s = "idle" then some (pureHandler "go" (some "loading"))
    else if s = "loading" then some (pureHandler "done" (some "success"))
    else if s = "success" then some (pureHandler ev none)
    else none)

/-- Claim C4 counterexample: the Scenario 1 run does not emit exactly
`[go, done]` — the mapped success state executes and yields a third event
before its terminate transition. -/
theorem fsm_scenario1_cex :
    ((scenario1 "finished").run 5).events = ["go", "done", "finished"] ∧
    ((scenario1 "finished").run 5).events ≠ ["go", "done"] ∧
    ((scenario1 "finished").run 5).outcome = RunOutcome.completed := by
  have hev : ((scenario1 "finished").run 5).events = ["go", "done", "finished"] := rfl
  refine ⟨hev, ?_, rfl⟩
  rw [hev]
  decide

/-- Claim C4 as amended: a full run of the Scenario 1 machine emits the two
events `go`, `done` followed by the one event produced by success's execute,
and after completion the current state is absent (`null`). -/
theorem fsm_scenario1_amended (ev : String) :
    ((scenario1 ev).run 5).events = ["go", "done", ev] ∧
    ((scenario1 ev).run 5).machine.getCurrentState = none ∧
    ((scenario1 ev).run 5).outcome = RunOutcome.completed :=
  ⟨rfl, rfl, rfl⟩

/-! ### Claim C6: no validation of the initial state -/

/-- Claim C6: construction stores `initialContext` and `initialState` with no
validation, and when `initialState` has no entry in the map the run ends at
once: zero events, zero hook invocations, no failure, fields untouched. -/
theorem fsm_unvalidated_initial_state (c : C) (s : S)
    (st : S → Option (FSMStateHandler S E C Err)) (fuel : Nat)
    (habs : st s = none) :
    (FSM.make c s st).currentState = some s ∧
    (FSM.make c s st).context = c ∧
    ((FSM.make c s st).run fuel).events = [] ∧
    ((FSM.make c s st).run fuel).trace = [] ∧
    ((FSM.make c s st).run fuel).outcome = RunOutcome.completed ∧
    ((FSM.make c s st).run fuel).machine = FSM.make c s st := by
  have ht : (FSM.make c s st).terminated = true := by
    simp [FSM.terminated, FSM.make, habs]
  rw [run_of_terminated _ fuel ht]
  exact ⟨rfl, rfl, rfl, rfl, rfl, rfl⟩

/-- The everywhere-empty state map. -/
def emptyStates : Nat → Option (FSMStateHandler Nat Nat Nat Nat) :=
  fun _ => none

/-- Claim C6 witness: concrete machine whose initial state is unmapped. -/
theorem fsm_unvalidated_initial_state_witness :
    (FSM.make 7 5 emptyStates).currentState = some 5 ∧
    (FSM.make 7 5 emptyStates).context = 7 ∧
    ((FSM.make 7 5 emptyStates).run 3).events = [] ∧
    ((FSM.make 7 5 emptyStates).run 3).trace = [] ∧
    ((FSM.make 7 5 emptyStates).run 3).outcome = RunOutcome.completed ∧
    ((FSM.make 7 5 emptyStates).run 3).machine = FSM.make 7 5 emptyStates :=
  fsm_unvalidated_initial_state 7 5 emptyStates 3 rfl

/-! ### Claim C7: `reset` replaces exactly the supplied fields -/

/-- Claim C7: `reset(newContext?, newState?)` replaces the context field
exactly when `newContext` is supplied and the current-state field exactly
when `newState` is supplied, leaves the unsupplied field unchanged, and
leaves the state map unchanged.  (`reset` touches no handler, so no
lifecycle hook can run.) -/
theorem fsm_reset_frame (m : FSM S E C Err) (nc : Option C) (ns : Option S) :
    (∀ c, nc = some c → (m.reset nc ns).context = c) ∧
    (nc = none → (m.reset nc ns).context = m.context) ∧
    (∀ s, ns = some s → (m.reset nc ns).currentState = some s) ∧
    (ns = none → (m.reset nc ns).currentState = m.currentState) ∧
    (m.reset nc ns).states = m.states := by
  refine ⟨?_, ?_, ?_, ?_, rfl⟩
  · intro c hc
    subst hc
    rfl
  · intro hc
    subst hc
    rfl
  · intro s hs
    subst hs
    rfl
  · intro hs
    subst hs
    rfl

/-- Claim C7 witness: supplying only a new context keeps the state and map. -/
theorem fsm_reset_frame_witness :
    ((FSM.make 1 2 emptyStates).reset (some 9) none).context = 9 ∧
    ((FSM.make 1 2 emptyStates).reset (some 9) none).currentState
      = (FSM.make 1 2 emptyStates).currentState ∧
    ((FSM.make 1 2 emptyStates).reset (some 9) none).states
      = (FSM.make 1 2 emptyStates).states := by
  have h := fsm_reset_frame (FSM.make 1 2 emptyStates) (some 9) none
  exact ⟨h.1 9 rfl, h.2.2.2.1 rfl, h.2.2.2.2⟩

/-! ### Claim C8: `updateContext` with the identity is unobservable -/

/-- Claim C8: calling `updateContext` with the identity function between two
pulls changes no engine field, so every subsequently emitted event (and the
whole remaining run) is identical to the run without that call. -/
theorem fsm_updateContext_id (m : FSM S E C Err) (fuel : Nat) :
    m.updateContext (fun c => c) = m ∧
    ((m.updateContext (fun c => c)).run fuel).events = (m.run fuel).events :=
  ⟨rfl, rfl⟩

/-! ### Claim C9: `eventBasedTransition` and falsy mapped states -/

/-- An event with a string `type` tag, as required by `eventBasedTransition`. -/
structure TypedEvent where
  type : String
  deriving DecidableEq

/-- `eventBasedTransition(eventMap)` from `src/helpers.ts`: the returned
transition is `(event) => eventMap[event.type] || null`.  A missing key gives
`undefined`, which `||` turns into `null`; but `||` also turns any falsy
mapped state (the number 0, the empty string, ...) into `null`.  `falsy`
encodes JavaScript truthiness for the concrete state type. -/
def eventBasedTransition (falsy : S → Bool) (eventMap : String → Option S) :
    TypedEvent → C → Option S :=
  fun ev _ =>
    match eventMap ev.type with
    | some s => if falsy s then none else some s
    | none => none

/-- An event map with numeric states that maps the tag "go" to state 0. -/
def numericGoMap : String → Option Nat :=
  fun t => if t = "go" then some 0 else none

/-- Claim C9 failing input: with numeric states, the key "go" is present in
the map and is associated with state 0, yet the produced transition returns
`null` (terminate) for `\x7btype: 'go'\x7d`, because `|| null` also
discards the falsy state 0 — not only missing keys. -/
theorem eventBasedTransition_falsy_state_bug :
    numericGoMap "go" = some 0 ∧
    @eventBasedTransition Nat Nat (fun n => n == 0) numericGoMap ⟨"go"⟩ 0 = none ∧
    @eventBasedTransition Nat Nat (fun n => n == 0) numericGoMap ⟨"missing"⟩ 0 = none := by
  refine ⟨rfl, rfl, rfl⟩

/-! ### Claim C5: termination on well-founded state maps -/

/-- A handler none of whose operations ever fails. -/
def HandlerTotal (h : FSMStateHandler S E C Err) : Prop :=
  (∀ c, hookEnter h c = Except.ok ()) ∧
  (∀ c, ∃ r, h.execute c = Except.ok r) ∧
  (∀ e c, hookExit h e c = Except.ok ()) ∧
  (∀ e c, ∃ ns, h.transition e c = Except.ok ns)

/-- Every handler in the machine's map is non-failing. -/
def NoFail (m : FSM S E C Err) : Prop :=
  ∀ s h, m.states s = some h → HandlerTotal h

/-- One realizable transition of the map `st`: from state/context `p` a
mapped handler executes to `r` and its transition selects the state of `q`
with the committed context of `q`. -/
def StepsTo (st : S → Option (FSMStateHandler S E C Err)) (p q : S × C) : Prop :=
  ∃ h r, st p.1 = some h ∧ h.execute p.2 = Except.ok r ∧
    h.transition r.event r.context = Except.ok (some q.1) ∧ q.2 = r.context

/-- Core induction for Claim C5: from any accessible state/context pair, the
run reaches completion with some finite fuel. -/
theorem run_completes_of_acc (st : S → Option (FSMStateHandler S E C Err))
    (hnf : ∀ s h, st s = some h → HandlerTotal h) :
    ∀ p : S × C, Acc (fun q p => StepsTo st p q) p →
      ∃ n, ((FSM.mk p.2 (some p.1) st).run n).outcome = RunOutcome.completed := by
  intro p hacc
  induction hacc with
  | intro p hsucc ih =>
    obtain ⟨s, c⟩ := p
    cases hst : st s with
    | none =>
      refine ⟨0, ?_⟩
      simp [FSM.run, FSM.terminated, hst]
    | some h =>
      obtain ⟨hEn, hExe, hXt, hTr⟩ := hnf s h hst
      obtain ⟨r, hr⟩ := hExe c
      obtain ⟨ns, hns⟩ := hTr r.event r.context
      have hstep := stepOut_ok ⟨c, some s, st⟩ s h r ns rfl hst (hEn c) hr
        (hXt r.event r.context) hns
      cases ns with
      | none =>
        refine ⟨2, ?_⟩
        rw [run_succ_next _ _ _ _ 1 hstep]
        rw [run_of_terminated ⟨r.context, none, st⟩ 1 rfl]
      | some s2 =>
        obtain ⟨n, hn⟩ := ih (s2, r.context) ⟨h, r, hst, hr, hns, rfl⟩
        refine ⟨n + 1, ?_⟩
        rw [run_succ_next _ _ _ _ n hstep]
        exact hn

/-- Claim C5: if no handler in the map ever fails and every realizable
transition path from the current configuration is finite (the configuration
is accessible for the step relation, i.e. every path eventually reaches an
unmapped or absent state), then the run terminates: with enough fuel it
completes cleanly, emitting its (finite) event list and raising no failure. -/
theorem fsm_run_terminates (m : FSM S E C Err) (hnf : NoFail m)
    (hacc : ∀ s, m.currentState = some s →
      Acc (fun q p => StepsTo m.states p q) (s, m.context)) :
    ∃ n, (m.run n).outcome = RunOutcome.completed := by
  cases hs : m.currentState with
  | none =>
    refine ⟨0, ?_⟩
    rw [run_of_terminated m 0 (by simp [FSM.terminated, hs])]
  | some s =>
    have hm : m = ⟨m.context, some s, m.states⟩ := by
      cases m with
      | mk c cs st =>
        simp only at hs
        rw [hs]
    rw [hm]
    exact run_completes_of_acc m.states hnf (s, m.context) (hacc s hs)

/-- A self-contained two-state demo: state 0 increments the context, emits 7
and moves to state 1, which is unmapped. -/
def demoHandler : FSMStateHandler Nat Nat Nat Nat :=
  { execute := fun c => Except.ok ⟨7, c + 1⟩
    transition := fun _ _ => Except.ok (some 1) }

/-- The demo state map: only state 0 is mapped. -/
def demoStates : Nat → Option (FSMStateHandler Nat Nat Nat Nat) :=
  fun s => if s = 0 then some demoHandler else none

/-- The demo machine starting at state 0 with context 0. -/
def demoMachine : FSM Nat Nat Nat Nat :=
  FSM.make 0 0 demoStates

theorem demoStates_noFail : NoFail demoMachine := by
  intro s h hsh
  simp only [demoMachine, FSM.make, demoStates] at hsh
  by_cases h0 : s = 0
  · subst h0
    simp at hsh
    subst hsh
    refine ⟨fun c => rfl, fun c => ⟨⟨7, c + 1⟩, rfl⟩, fun e c => rfl,
      fun e c => ⟨some 1, rfl⟩⟩
  · simp [h0] at hsh

theorem demoStates_acc :
    Acc (fun q p => StepsTo demoMachine.states p q) (0, 0) := by
  refine Acc.intro _ ?_
  rintro ⟨q1, q2⟩ ⟨h, r, hst, hex, htr, hctx⟩
  simp [demoMachine, FSM.make, demoStates] at hst
  subst hst
  simp only [demoHandler, Except.ok.injEq] at hex htr
  rw [Option.some.injEq] at htr
  refine Acc.intro _ ?_
  rintro ⟨p1, p2⟩ ⟨h2, r2, hst2, _⟩
  rw [← htr] at hst2
  simp [demoMachine, FSM.make, demoStates] at hst2

/-- Claim C5 witness: the demo machine terminates. -/
theorem fsm_run_terminates_witness :
    ∃ n, (demoMachine.run n).outcome = RunOutcome.completed := by
  apply fsm_run_terminates demoMachine demoStates_noFail
  intro s hs
  have hs0 : s = 0 := by
    simpa [demoMachine, FSM.make] using hs.symm
  subst hs0
  exact demoStates_acc

/-! ### Concrete witnesses for the error-routing and commit theorems -/

/-- A handler with an `onExit` hook, used to witness the commit claim. -/
def exitHandler : FSMStateHandler Nat Nat Nat Nat :=
  { execute := fun c => Except.ok ⟨3, c + 10⟩
    onExit := some (fun _ _ => Except.ok ())
    transition := fun _ _ => Except.ok none }

/-- A machine at state 0 with context 5 whose handler is `exitHandler`. -/
def exitMachine : FSM Nat Nat Nat Nat :=
  FSM.make 5 0 (fun s => if s = 0 then some exitHandler else none)

/-- Claim C1 witness: after the step, the context is the one execute
returned (5 + 10). -/
theorem fsm_context_commit_witness :
    exitMachine.stepOut.ctxAfter exitMachine.context = 15 :=
  (fsm_context_commit exitMachine 0 exitHandler ⟨3, 15⟩ rfl rfl rfl rfl).1

/-- A handler whose `execute` always fails, with a clean `onError`. -/
def failHandler : FSMStateHandler Nat Nat Nat String :=
  { execute := fun _ => Except.error "boom"
    onError := some (fun _ _ => Except.ok ())
    transition := fun _ _ => Except.ok none }

/-- A machine at state 0 with context 5 whose handler is `failHandler`. -/
def failMachine : FSM Nat Nat Nat String :=
  FSM.make 5 0 (fun s => if s = 0 then some failHandler else none)

/-- Claim C2 witness: the failing execute routes through `onError` once with
the pre-execute context and re-raises the same failure. -/
theorem fsm_error_routing_witness :
    ∃ tr, (failMachine.run 4).outcome = RunOutcome.failed "boom" ∧
      (failMachine.run 4).trace = tr ++ [Call.error 0 "boom" 5] ∧
      (∀ s2 e2 c2, Call.error s2 e2 c2 ∈ tr → False) ∧
      (failMachine.run 4).events = [] ∧
      (failMachine.run 4).machine.context = 5 ∧
      (failMachine.run 4).machine.currentState = some 0 :=
  fsm_error_routing failMachine 0 failHandler "boom" 5 (fun _ _ => Except.ok ()) 3
    rfl rfl rfl rfl (Or.inr (Or.inl ⟨rfl, rfl, rfl⟩))

/-- A handler whose `transition` always fails, with a clean `onError`. -/
def badTransHandler : FSMStateHandler Nat Nat Nat String :=
  { execute := fun c => Except.ok ⟨9, c + 1⟩
    onError := some (fun _ _ => Except.ok ())
    transition := fun _ _ => Except.error "tfail" }

/-- A machine at state 0 with context 1 whose handler is `badTransHandler`. -/
def badTransMachine : FSM Nat Nat Nat String :=
  FSM.make 1 0 (fun s => if s = 0 then some badTransHandler else none)

/-- Claim C10 witness: the event is emitted, `onError` runs once with the
committed context 2, the same failure is re-raised, and the current state
stays at 0. -/
theorem fsm_transition_error_routing_witness :
    ∃ tr, (badTransMachine.run 2).events = [9] ∧
      (badTransMachine.run 2).outcome = RunOutcome.failed "tfail" ∧
      (badTransMachine.run 2).trace = tr ++ [Call.error 0 "tfail" 2] ∧
      (∀ s2 e2 c2, Call.error s2 e2 c2 ∈ tr → False) ∧
      (badTransMachine.run 2).machine.currentState = some 0 ∧
      (badTransMachine.run 2).machine.context = 2 :=
  fsm_transition_error_routing badTransMachine 0 badTransHandler ⟨9, 2⟩ "tfail"
    (fun _ _ => Except.ok ()) 1 rfl rfl rfl rfl rfl rfl rfl rfl

end FsmSpec
